import Mathlib

/-!
Verification of the memory visualizer `assignment2.py`.

The program is shallow-embedded below.  Python integers are modelled as `ℤ`,
Python floats as exact fractions (`Flt`, a numerator/denominator pair on which
every arithmetic step of the program is exact), Python strings as `String`
manipulated through executable helpers over their character lists, and the
process environment (the meminfo pseudo-file, the pidof lookup, the per-pid
smaps pseudo-files) as an explicit `Env` record.  File reads performed by the
driver are logged as `ReadEvent`s so that I/O-counting properties can be
stated.  Fallible code (missing fields, vanished files, unparsable numbers,
division by zero) is modelled with `Option`.
-/

/-! ## Python string primitives -/

/-- Whitespace test used by Python `str.split()` / `str.strip()` (the
characters that actually occur in the modelled sources). -/
def isWS (c : Char) : Bool :=
  c = ' ' || c = '\t' || c = '\n' || c = '\r'

/-- Split a character list into maximal whitespace-free tokens, the behaviour
of Python `str.split()` with no argument. -/
def tokens (cs : List Char) : List (List Char) :=
  (cs.foldr
    (fun c acc =>
      if isWS c then [] :: acc
      else
        match acc with
        | [] => [[c]]
        | t :: ts => (c :: t) :: ts)
    []).filter (fun t => t ≠ [])

/-- Python `line.split()`. -/
def pySplit (s : String) : List String :=
  (tokens s.data).map String.mk

/-- Python `s.startswith(pre)`. -/
def pyStartsWith (s pre : String) : Bool :=
  pre.data.isPrefixOf s.data

/-- Decimal digit run to a number; `none` on an empty or non-digit run. -/
def digitsVal (cs : List Char) : Option ℕ :=
  if cs = [] then none
  else
    cs.foldl
      (fun acc c =>
        match acc with
        | none => none
        | some a => if c.isDigit then some (a * 10 + (c.toNat - '0'.toNat)) else none)
      (some 0)

/-- Python `int(s)`: optional surrounding whitespace, optional sign, digits;
`none` models the `ValueError` raised otherwise. -/
def pyInt? (s : String) : Option ℤ :=
  match (s.data.dropWhile isWS).reverse.dropWhile isWS |>.reverse with
  | '-' :: rest => (digitsVal rest).map (fun n => -(n : ℤ))
  | '+' :: rest => (digitsVal rest).map (fun n => (n : ℤ))
  | cs => (digitsVal cs).map (fun n => (n : ℤ))

/-- Python `c * n` for a one-character string: `n` copies, empty when
`n ≤ 0`. -/
def pyRepeat (c : Char) (n : ℤ) : String :=
  String.mk (List.replicate n.toNat c)

/-- Rendering of an optional string inside an f-string: Python prints the
value `None` as the text "None". -/
def pyShow (o : Option String) : String :=
  o.getD "None"

/-! ## Exact model of Python float values

Every float the program manipulates is produced from integers by `*`, `/`
and comparisons, so each value is an exact rational.  `Flt` carries it as a
numerator/denominator pair; all operations are kernel-executable.  `Flt.toRat`
maps into `ℚ` for stating specifications. -/

/-- An exact numeric value (the model of a Python `int` or `float` operand).
The denominator is kept positive by all constructions below. -/
structure Flt where
  num : ℤ
  den : ℕ
deriving DecidableEq, Repr

/-- Conversion of a Python integer into a numeric operand. -/
def Flt.ofInt (n : ℤ) : Flt :=
  ⟨n, 1⟩

/-- Python `a * b`. -/
def Flt.mul (a b : Flt) : Flt :=
  ⟨a.num * b.num, a.den * b.den⟩

/-- Python true division `a / b` (sign normalised so the denominator stays
nonnegative). -/
def Flt.div (a b : Flt) : Flt :=
  if 0 ≤ b.num then ⟨a.num * (b.den : ℤ), a.den * b.num.natAbs⟩
  else ⟨-(a.num * (b.den : ℤ)), a.den * b.num.natAbs⟩

/-- Python `a < b` on numbers (correct whenever both denominators are
positive, which every constructed value satisfies). -/
def Flt.blt (a b : Flt) : Bool :=
  a.num * (b.den : ℤ) < b.num * (a.den : ℤ)

/-- Python `int(a)` on a float: truncation toward zero. -/
def Flt.trunc (a : Flt) : ℤ :=
  a.num.tdiv (a.den : ℤ)

/-- The exact rational value of an `Flt`. -/
def Flt.toRat (a : Flt) : ℚ :=
  (a.num : ℚ) / ((a.den : ℕ) : ℚ)

/-- Round to the nearest integer, ties to even: the rounding of Python's
`format` for floats whose value is exact. -/
def Flt.roundHE (a : Flt) : ℤ :=
  let f := a.num.fdiv (a.den : ℤ)
  let r2 := 2 * (a.num - f * (a.den : ℤ))
  if r2 < (a.den : ℤ) then f
  else if (a.den : ℤ) < r2 then f + 1
  else if f % 2 = 0 then f else f + 1

/-- Python `f"{a:.2f}"` for an exact value. -/
def pyFormat2f (a : Flt) : String :=
  let n := (Flt.mul a (Flt.ofInt 100)).roundHE
  let sgn := if n < 0 then "-" else ""
  let m := n.natAbs
  sgn ++ toString (m / 100) ++ "." ++ (if m % 100 < 10 then "0" else "") ++ toString (m % 100)

/-- Python `f"{a:.0f}"` for an exact value. -/
def pyFormat0f (a : Flt) : String :=
  toString a.roundHE

/-! ## The formatter functions of the program -/

/-- Shallow embedding of `percent_to_graph(percentage, bar_length)`:
`filled_length = int(percentage * bar_length)` followed by
`'#' * filled_length + ' ' * (bar_length - filled_length)`. -/
def percent_to_graph (percentage : Flt) (bar_length : ℤ) : String :=
  let filled_length := (Flt.mul percentage (Flt.ofInt bar_length)).trunc
  pyRepeat '#' filled_length ++ pyRepeat ' ' (bar_length - filled_length)

/-- The unit list of `bytes_to_human_readable`. -/
def hrUnits : List String :=
  ["B", "KiB", "MiB", "GiB", "TiB"]

/-- The `for unit in [...]` loop body of `bytes_to_human_readable`: return at
the first unit where the value is below 1024, else divide by 1024 and
continue; falling off the loop returns Python `None`. -/
def hrGo : List String → Flt → Option String
  | [], _ => none
  | u :: rest, b =>
    if b.blt (Flt.ofInt 1024) then some (pyFormat2f b ++ " " ++ u)
    else hrGo rest (b.div (Flt.ofInt 1024))

/-- Shallow embedding of `bytes_to_human_readable(bytes)`. -/
def bytes_to_human_readable (b : Flt) : Option String :=
  hrGo hrUnits b

/-! ## The meminfo reader -/

/-- The value field of a meminfo/smaps line: `int(line.split()[1])`. -/
def lineVal (l : String) : Option ℤ :=
  match (pySplit l).get? 1 with
  | none => none
  | some t => pyInt? t

/-- Shallow embedding of `get_sys_mem()`: the value of the first line of the
meminfo source starting with "MemTotal"; Python returns `None` when no line
matches (and raises on a malformed matching line, also `none` here). -/
def get_sys_mem : List String → Option ℤ
  | [] => none
  | l :: rest => if pyStartsWith l "MemTotal" then lineVal l else get_sys_mem rest

/-- The three mutable locals of `get_avail_mem`. -/
structure AvState where
  mem_free : ℤ
  swap_free : ℤ
  mem_available : ℤ
deriving DecidableEq, Repr

/-- One iteration of the `get_avail_mem` line loop. -/
def avStep (st : AvState) (l : String) : Option AvState :=
  if pyStartsWith l "MemFree" then (lineVal l).map (fun v => { st with mem_free := v })
  else if pyStartsWith l "SwapFree" then (lineVal l).map (fun v => { st with swap_free := v })
  else if pyStartsWith l "MemAvailable" then (lineVal l).map (fun v => { st with mem_available := v })
  else some st

/-- The `get_avail_mem` line loop over a whole source. -/
def avFold : AvState → List String → Option AvState
  | st, [] => some st
  | st, l :: rest =>
    match avStep st l with
    | none => none
    | some st2 => avFold st2 rest

/-- Shallow embedding of `get_avail_mem()`: run the line loop from zeroed
locals, then fall back to `mem_free + swap_free` when `mem_available` is
zero. -/
def get_avail_mem (lines : List String) : Option ℤ :=
  (avFold ⟨0, 0, 0⟩ lines).map
    (fun st => if st.mem_available = 0 then st.mem_free + st.swap_free else st.mem_available)

/-- Specification-side reading of a meminfo source: the parsed value of the
last line starting with the given field label, `none` when no line matches. -/
def lastFieldVal (pre : String) : List String → Option ℤ
  | [] => none
  | l :: rest =>
    match lastFieldVal pre rest with
    | some v => some v
    | none => if pyStartsWith l pre then lineVal l else none

/-- A meminfo source whose matched lines all carry a parsable value (the
program raises otherwise). -/
def wfMeminfo (lines : List String) : Prop :=
  ∀ l ∈ lines,
    (pyStartsWith l "MemFree" || pyStartsWith l "SwapFree" || pyStartsWith l "MemAvailable") = true →
      (lineVal l).isSome

instance (lines : List String) : Decidable (wfMeminfo lines) := by
  unfold wfMeminfo; infer_instance

/-! ## The per-process smaps reader -/

/-- The `rss_total` accumulation loop of `rss_mem_of_pid` over the lines of an
existing smaps source. -/
def rssFold : List String → Option ℤ
  | [] => some 0
  | l :: rest =>
    if pyStartsWith l "Rss" then
      match lineVal l, rssFold rest with
      | some v, some s => some (v + s)
      | _, _ => none
    else rssFold rest

/-- Shallow embedding of `rss_mem_of_pid(pid)`.  The smaps source is `none`
when the file vanished: that case prints the not-found notice and returns 0.
The result pairs the returned kilobyte count with the printed lines. -/
def rss_mem_of_pid (pid : String) (smaps : Option (List String)) : Option (ℤ × List String) :=
  match smaps with
  | none => some (0, ["Process " ++ pid ++ " not found."])
  | some lines => (rssFold lines).map (fun v => (v, []))

/-- Specification-side resident-set total of an smaps source: the sum of the
values of the lines starting with "Rss". -/
def rssLinesSum (lines : List String) : ℤ :=
  ((lines.filter (fun l => pyStartsWith l "Rss")).map (fun l => (lineVal l).getD 0)).sum

/-- An smaps source whose "Rss" lines all carry a parsable value. -/
def wfSmaps (lines : List String) : Prop :=
  ∀ l ∈ lines, pyStartsWith l "Rss" = true → (lineVal l).isSome

instance (lines : List String) : Decidable (wfSmaps lines) := by
  unfold wfSmaps; infer_instance

/-! ## The report driver -/

/-- One attempted read of an external source by the driver. -/
inductive ReadEvent where
  | meminfo : ReadEvent
  | pidof : String → ReadEvent
  | smaps : String → ReadEvent
deriving DecidableEq, Repr

/-- The parsed command line: optional positional program name, the
`-H`/`--human-readable` flag, the `-l`/`--length` value (default 20). -/
structure Args where
  program : Option String
  human_readable : Bool
  length : ℤ
deriving DecidableEq, Repr

/-- The process environment: the meminfo source content, the pidof lookup
result for each name, and the smaps content for each pid (`none` when the
file does not exist). -/
structure Env where
  meminfo : List String
  pidsOf : String → List String
  smapsOf : String → Option (List String)

/-- Formatting of a kilobyte count by the driver: through
`bytes_to_human_readable(v * 1024)` under `-H`, else the raw count with a
"KiB" suffix. -/
def sizeStr (hr : Bool) (v : ℤ) : String :=
  if hr then pyShow (bytes_to_human_readable (Flt.ofInt (v * 1024)))
  else toString v ++ " KiB"

/-- The first per-pid loop of `main`: sum `rss_mem_of_pid` over the pids,
collecting printed notices and the smaps reads attempted. -/
def sumRssLoop (smapsOf : String → Option (List String)) :
    List String → Option (ℤ × List String × List ReadEvent)
  | [] => some (0, [], [])
  | pid :: rest =>
    match rss_mem_of_pid pid (smapsOf pid) with
    | none => none
    | some (v, out) =>
      match sumRssLoop smapsOf rest with
      | none => none
      | some (t, outs, evs) => some (v + t, out ++ outs, ReadEvent.smaps pid :: evs)

/-- The second per-pid loop of `main`: re-read each pid's rss and print its
report line. -/
def pidLinesLoop (smapsOf : String → Option (List String)) (hr : Bool) (len : ℤ)
    (totalMem : ℤ) (totalMemHr : String) :
    List String → Option (List String × List ReadEvent)
  | [] => some ([], [])
  | pid :: rest =>
    match rss_mem_of_pid pid (smapsOf pid) with
    | none => none
    | some (v, out) =>
      let pidRssHr := sizeStr hr v
      let pidPercentUsed := Flt.div (Flt.ofInt v) (Flt.ofInt totalMem)
      let line := pid ++ "         [" ++ percent_to_graph pidPercentUsed len ++ "] "
        ++ pidRssHr ++ "/" ++ totalMemHr
      match pidLinesLoop smapsOf hr len totalMem totalMemHr rest with
      | none => none
      | some (ls, evs) => some (out ++ line :: ls, ReadEvent.smaps pid :: evs)

/-- Shallow embedding of `main()`.  The result is `none` when the Python run
raises (missing or malformed MemTotal, zero total memory, malformed smaps
line); otherwise it is the list of printed lines together with the reads
attempted, in order.  Both meminfo passes happen before anything else, and an
empty or `None` program name (Python falsiness of `args.program`) selects the
system-wide report. -/
def mainRun (args : Args) (env : Env) : Option (List String × List ReadEvent) :=
  match get_sys_mem env.meminfo, get_avail_mem env.meminfo with
  | some totalMem, some availMem =>
    if totalMem = 0 then none
    else
      let usedMem := totalMem - availMem
      let percentUsed := Flt.div (Flt.ofInt usedMem) (Flt.ofInt totalMem)
      let totalMemHr := sizeStr args.human_readable totalMem
      let usedMemHr := sizeStr args.human_readable usedMem
      let barGraph := percent_to_graph percentUsed args.length
      match args.program with
      | some prog =>
        if prog = "" then
          some (["Memory         [" ++ barGraph ++ " | "
            ++ pyFormat0f (Flt.mul percentUsed (Flt.ofInt 100)) ++ "%] "
            ++ usedMemHr ++ "/" ++ totalMemHr], [ReadEvent.meminfo, ReadEvent.meminfo])
        else
          let pids := env.pidsOf prog
          if pids = [] then
            some ([prog ++ " not found."],
              [ReadEvent.meminfo, ReadEvent.meminfo, ReadEvent.pidof prog])
          else
            match sumRssLoop env.smapsOf pids with
            | none => none
            | some (totalProgRss, outs1, evs1) =>
              let totalProgRssHr := sizeStr args.human_readable totalProgRss
              let progPercentUsed := Flt.div (Flt.ofInt totalProgRss) (Flt.ofInt totalMem)
              let summaryLine := prog ++ "        ["
                ++ percent_to_graph progPercentUsed args.length ++ "] "
                ++ totalProgRssHr ++ "/" ++ totalMemHr
              match pidLinesLoop env.smapsOf args.human_readable args.length totalMem
                  totalMemHr pids with
              | none => none
              | some (outs2, evs2) =>
                some (outs1 ++ summaryLine :: outs2,
                  [ReadEvent.meminfo, ReadEvent.meminfo, ReadEvent.pidof prog] ++ evs1 ++ evs2)
      | none =>
        some (["Memory         [" ++ barGraph ++ " | "
          ++ pyFormat0f (Flt.mul percentUsed (Flt.ofInt 100)) ++ "%] "
          ++ usedMemHr ++ "/" ++ totalMemHr], [ReadEvent.meminfo, ReadEvent.meminfo])
  | _, _ => none

/-! ## Bridge lemmas -/

theorem pyRepeat_length (c : Char) (n : ℤ) : (pyRepeat c n).length = n.toNat := by
  simp [pyRepeat, String.length]

theorem string_mk_append (a b : List Char) :
    String.mk a ++ String.mk b = String.mk (a ++ b) := rfl

theorem string_mk_length (l : List Char) : (String.mk l).length = l.length := rfl

theorem string_append_assoc (a b c : String) : a ++ b ++ c = a ++ (b ++ c) := by
  cases a
  cases b
  cases c
  simp only [string_mk_append, List.append_assoc]

theorem Flt.toRat_ofInt (n : ℤ) : (Flt.ofInt n).toRat = (n : ℚ) := by
  simp [Flt.toRat, Flt.ofInt]

theorem Flt.toRat_mul (a b : Flt) : (Flt.mul a b).toRat = a.toRat * b.toRat := by
  simp only [Flt.toRat, Flt.mul]
  push_cast
  rw [div_mul_div_comm]

theorem Flt.trunc_eq_floor (a : Flt) (hn : 0 ≤ a.num) : a.trunc = ⌊a.toRat⌋ := by
  rw [Flt.toRat, Rat.floor_intCast_div_natCast, Flt.trunc]
  exact Int.tdiv_eq_ediv hn (Int.ofNat_nonneg _)

theorem Flt.num_nonneg_of_toRat (a : Flt) (hd : 0 < a.den) (h : 0 ≤ a.toRat) :
    0 ≤ a.num := by
  rcases div_nonneg_iff.mp h with ⟨h1, _⟩ | ⟨_, h2⟩
  · exact_mod_cast h1
  · have hd' : (0 : ℚ) < (a.den : ℚ) := by exact_mod_cast hd
    linarith

theorem Flt.num_le_den_of_toRat (a : Flt) (hd : 0 < a.den) (h : a.toRat ≤ 1) :
    a.num ≤ (a.den : ℤ) := by
  have hd' : (0 : ℚ) < ((a.den : ℕ) : ℚ) := by exact_mod_cast hd
  have := (div_le_one hd').mp h
  exact_mod_cast this

theorem percent_to_graph_eq (f : Flt) (L : ℤ) :
    percent_to_graph f L =
      pyRepeat '#' ((f.num * L).tdiv (f.den : ℤ))
        ++ pyRepeat ' ' (L - (f.num * L).tdiv (f.den : ℤ)) := by
  simp [percent_to_graph, Flt.mul, Flt.ofInt, Flt.trunc]

/-- C2: for every fraction `f` with `0 ≤ f ≤ 1` and every non-negative
integer length `L`, `percent_to_graph f L` returns a string of exactly `L`
characters; `percent_to_graph 0 L` is `L` spaces and `percent_to_graph 1 L`
is `L` fill characters. -/
theorem C2_percent_to_graph_length (f : Flt) (L : ℕ) (hd : 0 < f.den)
    (h0 : 0 ≤ f.toRat) (h1 : f.toRat ≤ 1) :
    (percent_to_graph f (L : ℤ)).length = L
      ∧ percent_to_graph (Flt.ofInt 0) (L : ℤ) = pyRepeat ' ' (L : ℤ)
      ∧ percent_to_graph (Flt.ofInt 1) (L : ℤ) = pyRepeat '#' (L : ℤ) := by
  refine ⟨?_, ?_, ?_⟩
  · rw [percent_to_graph_eq]
    have hnum : 0 ≤ f.num := f.num_nonneg_of_toRat hd h0
    have hden : f.num ≤ (f.den : ℤ) := f.num_le_den_of_toRat hd h1
    have hL0 : (0 : ℤ) ≤ (L : ℤ) := Int.ofNat_nonneg L
    have hmn : 0 ≤ f.num * (L : ℤ) := mul_nonneg hnum hL0
    have hk : (f.num * (L : ℤ)).tdiv (f.den : ℤ) = (f.num * (L : ℤ)) / (f.den : ℤ) :=
      Int.tdiv_eq_ediv hmn (Int.ofNat_nonneg _)
    have hk0 : 0 ≤ (f.num * (L : ℤ)).tdiv (f.den : ℤ) := by
      rw [hk]; exact Int.ediv_nonneg hmn (Int.ofNat_nonneg _)
    have hkL : (f.num * (L : ℤ)).tdiv (f.den : ℤ) ≤ (L : ℤ) := by
      rw [hk]
      have hstep : (f.num * (L : ℤ)) / (f.den : ℤ) ≤ ((f.den : ℤ) * (L : ℤ)) / (f.den : ℤ) :=
        Int.ediv_le_ediv (by exact_mod_cast hd) (mul_le_mul_of_nonneg_right hden hL0)
      have hcancel : ((f.den : ℤ) * (L : ℤ)) / (f.den : ℤ) = (L : ℤ) :=
        Int.mul_ediv_cancel_left _ (by exact_mod_cast hd.ne')
      rw [hcancel] at hstep
      exact hstep
    simp only [pyRepeat, string_mk_append, string_mk_length, List.length_append,
      List.length_replicate]
    omega
  · rw [percent_to_graph_eq]
    simp [pyRepeat, string_mk_append, Flt.ofInt]
  · rw [percent_to_graph_eq]
    simp [pyRepeat, string_mk_append, Flt.ofInt]

theorem C2_percent_to_graph_length_witness :
    (percent_to_graph ⟨3, 4⟩ ((10 : ℕ) : ℤ)).length = 10
      ∧ percent_to_graph (Flt.ofInt 0) ((10 : ℕ) : ℤ) = pyRepeat ' ' ((10 : ℕ) : ℤ)
      ∧ percent_to_graph (Flt.ofInt 1) ((10 : ℕ) : ℤ) = pyRepeat '#' ((10 : ℕ) : ℤ) :=
  C2_percent_to_graph_length ⟨3, 4⟩ 10 (by decide)
    (by norm_num [Flt.toRat]) (by norm_num [Flt.toRat])

/-- The behaviour the specification claims for `percent_to_graph`: the filled
count is the mathematical floor of fraction times length, unclamped, followed
by the remaining spaces. -/
def percentToGraphFloorClaim (f : Flt) (L : ℤ) : String :=
  pyRepeat '#' ⌊f.toRat * (L : ℚ)⌋ ++ pyRepeat ' ' (L - ⌊f.toRat * (L : ℚ)⌋)

/-- C3 counterexample: at fraction `-11/20` and length 10 the program
truncates `-5.5` toward zero (`int` gives `-5`, fifteen output characters)
while the claimed floor is `-6` (sixteen output characters). -/
theorem C3_counterexample :
    percent_to_graph ⟨-11, 20⟩ 10 ≠ percentToGraphFloorClaim ⟨-11, 20⟩ 10 := by
  have hval : (Flt.toRat ⟨-11, 20⟩) * ((10 : ℤ) : ℚ) = ((-11 : ℤ) : ℚ) / ((2 : ℕ) : ℚ) := by
    norm_num [Flt.toRat]
  have hfl : ⌊(Flt.toRat ⟨-11, 20⟩) * ((10 : ℤ) : ℚ)⌋ = -6 := by
    rw [hval, Rat.floor_intCast_div_natCast]
    decide
  unfold percentToGraphFloorClaim
  rw [hfl]
  decide

/-- C3 (amended): for every fraction `f ≥ 0` (not for negative fractions,
where `int` truncates toward zero rather than flooring) and every positive
length `L`, `percent_to_graph f L` computes the filled length as
`⌊f * L⌋` without clamping and returns that many fill characters followed by
`L - ⌊f * L⌋` spaces (each count taken as zero when negative). -/
theorem C3_percent_to_graph_floor (f : Flt) (L : ℤ) (hd : 0 < f.den)
    (h0 : 0 ≤ f.toRat) (hL : 0 < L) :
    percent_to_graph f L = percentToGraphFloorClaim f L := by
  have hnum : 0 ≤ f.num := f.num_nonneg_of_toRat hd h0
  have hmn : 0 ≤ (Flt.mul f (Flt.ofInt L)).num := by
    simp only [Flt.mul, Flt.ofInt]
    exact mul_nonneg hnum (le_of_lt hL)
  have ht := Flt.trunc_eq_floor _ hmn
  rw [Flt.toRat_mul, Flt.toRat_ofInt] at ht
  unfold percent_to_graph percentToGraphFloorClaim
  rw [ht]

theorem C3_percent_to_graph_floor_witness :
    percent_to_graph ⟨3, 4⟩ 10 = percentToGraphFloorClaim ⟨3, 4⟩ 10 :=
  C3_percent_to_graph_floor ⟨3, 4⟩ 10 (by decide) (by norm_num [Flt.toRat]) (by decide)

theorem hrGo_cons (u : String) (rest : List String) (n : ℤ) (d : ℕ) :
    hrGo (u :: rest) ⟨n, d⟩ =
      if n < 1024 * d then some (pyFormat2f ⟨n, d⟩ ++ " " ++ u)
      else hrGo rest ⟨n, d * 1024⟩ := by
  simp only [hrGo, Flt.blt, Flt.div, Flt.ofInt]
  norm_num

theorem hrGo_nil (b : Flt) : hrGo [] b = none := rfl

/-- C4: `bytes_to_human_readable` repeatedly divides by 1024, choosing the
first unit among B, KiB, MiB, GiB, TiB at which the remaining value is below
1024, and formats the remaining value with two decimals and the unit suffix;
in particular it maps 0 to "0.00 B", 1024 to "1.00 KiB", 1536 to "1.50 KiB"
and 1073741824 to "1.00 GiB". -/
theorem C4_bytes_to_human_readable (b : ℤ) :
    (b < 1024 →
      bytes_to_human_readable (Flt.ofInt b) = some (pyFormat2f ⟨b, 1⟩ ++ " B"))
    ∧ (1024 ≤ b → b < 1024 ^ 2 →
      bytes_to_human_readable (Flt.ofInt b) = some (pyFormat2f ⟨b, 1024⟩ ++ " KiB"))
    ∧ (1024 ^ 2 ≤ b → b < 1024 ^ 3 →
      bytes_to_human_readable (Flt.ofInt b) = some (pyFormat2f ⟨b, 1024 ^ 2⟩ ++ " MiB"))
    ∧ (1024 ^ 3 ≤ b → b < 1024 ^ 4 →
      bytes_to_human_readable (Flt.ofInt b) = some (pyFormat2f ⟨b, 1024 ^ 3⟩ ++ " GiB"))
    ∧ (1024 ^ 4 ≤ b → b < 1024 ^ 5 →
      bytes_to_human_readable (Flt.ofInt b) = some (pyFormat2f ⟨b, 1024 ^ 4⟩ ++ " TiB"))
    ∧ bytes_to_human_readable (Flt.ofInt 0) = some "0.00 B"
    ∧ bytes_to_human_readable (Flt.ofInt 1024) = some "1.00 KiB"
    ∧ bytes_to_human_readable (Flt.ofInt 1536) = some "1.50 KiB"
    ∧ bytes_to_human_readable (Flt.ofInt 1073741824) = some "1.00 GiB" := by
  have h0 : Flt.ofInt b = ⟨b, 1⟩ := rfl
  refine ⟨?_, ?_, ?_, ?_, ?_, by decide, by decide, by decide, by decide⟩
  · intro h
    rw [bytes_to_human_readable, hrUnits, h0, hrGo_cons, if_pos (by omega)]
    simp only [string_append_assoc]
    rfl
  · intro h1 h2
    norm_num at h2
    rw [bytes_to_human_readable, hrUnits, h0, hrGo_cons, if_neg (by omega), hrGo_cons,
      if_pos (by omega)]
    norm_num
    simp only [string_append_assoc]
    rfl
  · intro h1 h2
    norm_num at h1 h2
    rw [bytes_to_human_readable, hrUnits, h0, hrGo_cons, if_neg (by omega), hrGo_cons,
      if_neg (by omega), hrGo_cons, if_pos (by omega)]
    norm_num
    simp only [string_append_assoc]
    rfl
  · intro h1 h2
    norm_num at h1 h2
    rw [bytes_to_human_readable, hrUnits, h0, hrGo_cons, if_neg (by omega), hrGo_cons,
      if_neg (by omega), hrGo_cons, if_neg (by omega), hrGo_cons, if_pos (by omega)]
    norm_num
    simp only [string_append_assoc]
    rfl
  · intro h1 h2
    norm_num at h1 h2
    rw [bytes_to_human_readable, hrUnits, h0, hrGo_cons, if_neg (by omega), hrGo_cons,
      if_neg (by omega), hrGo_cons, if_neg (by omega), hrGo_cons, if_neg (by omega),
      hrGo_cons, if_pos (by omega)]
    norm_num
    simp only [string_append_assoc]
    rfl

theorem C4_bytes_to_human_readable_witness :
    bytes_to_human_readable (Flt.ofInt 1536) = some (pyFormat2f ⟨1536, 1024⟩ ++ " KiB") :=
  (C4_bytes_to_human_readable 1536).2.1 (by norm_num) (by norm_num)

/-- C10: for every integer byte count at or above `1024 ^ 5` the unit loop of
`bytes_to_human_readable` is exhausted and the function returns Python `None`
(`none` here): the function is partial over the integers. -/
theorem C10_bytes_to_human_readable_none (b : ℤ) (h : (1024 : ℤ) ^ 5 ≤ b) :
    bytes_to_human_readable (Flt.ofInt b) = none := by
  norm_num at h
  rw [bytes_to_human_readable, hrUnits, show Flt.ofInt b = ⟨b, 1⟩ from rfl, hrGo_cons,
    if_neg (by omega), hrGo_cons, if_neg (by omega), hrGo_cons, if_neg (by omega),
    hrGo_cons, if_neg (by omega), hrGo_cons, if_neg (by omega), hrGo_nil]

theorem C10_bytes_to_human_readable_none_witness :
    bytes_to_human_readable (Flt.ofInt ((1024 : ℤ) ^ 5)) = none :=
  C10_bytes_to_human_readable_none ((1024 : ℤ) ^ 5) (le_refl _)

theorem pyStartsWith_excl {l : String} (p q : String)
    (h : (p.data.isPrefixOf q.data || q.data.isPrefixOf p.data) = false)
    (hp : pyStartsWith l p = true) : pyStartsWith l q = false := by
  unfold pyStartsWith at *
  by_contra hq
  rw [Bool.not_eq_false] at hq
  have h1 := List.isPrefixOf_iff_prefix.mp hp
  have h2 := List.isPrefixOf_iff_prefix.mp hq
  rcases List.prefix_or_prefix_of_prefix h1 h2 with h3 | h3
  · rw [← List.isPrefixOf_iff_prefix] at h3
    simp [h3] at h
  · rw [← List.isPrefixOf_iff_prefix] at h3
    simp [h3] at h

theorem avFold_eq (lines : List String) : ∀ st : AvState, wfMeminfo lines →
    avFold st lines = some
      ⟨(lastFieldVal "MemFree" lines).getD st.mem_free,
        (lastFieldVal "SwapFree" lines).getD st.swap_free,
        (lastFieldVal "MemAvailable" lines).getD st.mem_available⟩ := by
  induction lines with
  | nil =>
    intro st _
    simp [avFold, lastFieldVal]
  | cons l rest ih =>
    intro st hwf
    have hwf' : wfMeminfo rest := fun x hx hpre => hwf x (List.mem_cons_of_mem _ hx) hpre
    by_cases h1 : pyStartsWith l "MemFree" = true
    · have hv0 : (lineVal l).isSome := hwf l (List.mem_cons_self _ _) (by simp [h1])
      obtain ⟨v, hv⟩ := Option.isSome_iff_exists.mp hv0
      have h2 : pyStartsWith l "SwapFree" = false := pyStartsWith_excl _ _ (by decide) h1
      have h3 : pyStartsWith l "MemAvailable" = false := pyStartsWith_excl _ _ (by decide) h1
      have hunf : avFold st (l :: rest) = avFold { st with mem_free := v } rest := by
        simp [avFold, avStep, h1, hv]
      rw [hunf, ih _ hwf']
      simp only [lastFieldVal, h1, h2, h3]
      cases hmf : lastFieldVal "MemFree" rest <;>
        cases hsf : lastFieldVal "SwapFree" rest <;>
          cases hma : lastFieldVal "MemAvailable" rest <;>
            simp [hv, hmf, hsf, hma]
    · by_cases h2 : pyStartsWith l "SwapFree" = true
      · have hv0 : (lineVal l).isSome := hwf l (List.mem_cons_self _ _) (by simp [h2])
        obtain ⟨v, hv⟩ := Option.isSome_iff_exists.mp hv0
        have h3 : pyStartsWith l "MemAvailable" = false := pyStartsWith_excl _ _ (by decide) h2
        have h1f : pyStartsWith l "MemFree" = false := by simpa using h1
        have hunf : avFold st (l :: rest) = avFold { st with swap_free := v } rest := by
          simp [avFold, avStep, h1f, h2, hv]
        rw [hunf, ih _ hwf']
        simp only [lastFieldVal, h1f, h2, h3]
        cases hmf : lastFieldVal "MemFree" rest <;>
        cases hsf : lastFieldVal "SwapFree" rest <;>
          cases hma : lastFieldVal "MemAvailable" rest <;>
            simp [hv, hmf, hsf, hma]
      · by_cases h3 : pyStartsWith l "MemAvailable" = true
        · have hv0 : (lineVal l).isSome := hwf l (List.mem_cons_self _ _) (by simp [h3])
          obtain ⟨v, hv⟩ := Option.isSome_iff_exists.mp hv0
          have h1f : pyStartsWith l "MemFree" = false := by simpa using h1
          have h2f : pyStartsWith l "SwapFree" = false := by simpa using h2
          have hunf : avFold st (l :: rest) = avFold { st with mem_available := v } rest := by
            simp [avFold, avStep, h1f, h2f, h3, hv]
          rw [hunf, ih _ hwf']
          simp only [lastFieldVal, h1f, h2f, h3]
          cases hmf : lastFieldVal "MemFree" rest <;>
        cases hsf : lastFieldVal "SwapFree" rest <;>
          cases hma : lastFieldVal "MemAvailable" rest <;>
            simp [hv, hmf, hsf, hma]
        · have h1f : pyStartsWith l "MemFree" = false := by simpa using h1
          have h2f : pyStartsWith l "SwapFree" = false := by simpa using h2
          have h3f : pyStartsWith l "MemAvailable" = false := by simpa using h3
          have hunf : avFold st (l :: rest) = avFold st rest := by
            simp [avFold, avStep, h1f, h2f, h3f]
          rw [hunf, ih _ hwf']
          simp only [lastFieldVal, h1f, h2f, h3f]
          cases hmf : lastFieldVal "MemFree" rest <;>
            cases hsf : lastFieldVal "SwapFree" rest <;>
              cases hma : lastFieldVal "MemAvailable" rest <;>
                simp [hmf, hsf, hma]

/-- C5: on every well-formed meminfo source, when the MemAvailable field is
absent or reads as zero `get_avail_mem` returns the last MemFree value plus
the last SwapFree value (each zero when absent), and when the last
MemAvailable value is nonzero `get_avail_mem` returns exactly that value
regardless of the MemFree and SwapFree lines present. -/
theorem C5_get_avail_mem_fallback (lines : List String) (hwf : wfMeminfo lines) :
    ((lastFieldVal "MemAvailable" lines = none ∨ lastFieldVal "MemAvailable" lines = some 0) →
      get_avail_mem lines =
        some ((lastFieldVal "MemFree" lines).getD 0 + (lastFieldVal "SwapFree" lines).getD 0))
    ∧ (∀ v : ℤ, v ≠ 0 → lastFieldVal "MemAvailable" lines = some v →
      get_avail_mem lines = some v) := by
  have h := avFold_eq lines ⟨0, 0, 0⟩ hwf
  constructor
  · intro hcase
    rw [get_avail_mem, h]
    rcases hcase with hc | hc <;> simp [hc]
  · intro v hv hma
    rw [get_avail_mem, h]
    simp [hma, hv]

theorem C5_get_avail_mem_fallback_witness :
    get_avail_mem ["MemTotal: 8000000 kB", "MemFree: 500000 kB", "SwapFree: 0 kB"]
        = some 500000
      ∧ get_avail_mem ["MemTotal: 8000000 kB", "MemFree: 500000 kB", "SwapFree: 0 kB",
          "MemAvailable: 3000000 kB"] = some 3000000 := by
  constructor
  · exact ((C5_get_avail_mem_fallback _ (by decide)).1 (Or.inl (by decide))).trans (by decide)
  · exact (C5_get_avail_mem_fallback _ (by decide)).2 3000000 (by decide) (by decide)

theorem rssFold_eq (lines : List String) (hwf : wfSmaps lines) :
    rssFold lines = some (rssLinesSum lines) := by
  induction lines with
  | nil => simp [rssFold, rssLinesSum]
  | cons l rest ih =>
    have hwf' : wfSmaps rest := fun x hx h => hwf x (List.mem_cons_of_mem _ hx) h
    by_cases h : pyStartsWith l "Rss" = true
    · obtain ⟨v, hv⟩ := Option.isSome_iff_exists.mp (hwf l (List.mem_cons_self _ _) h)
      simp [rssFold, rssLinesSum, h, hv, ih hwf']
    · simp [rssFold, rssLinesSum, h, ih hwf']

/-- C6: for every pid and every existing well-formed smaps source,
`rss_mem_of_pid` returns the sum of the values of all lines beginning with
the "Rss" field label across all mapped regions (and prints nothing). -/
theorem C6_rss_mem_of_pid_sum (pid : String) (lines : List String) (hwf : wfSmaps lines) :
    rss_mem_of_pid pid (some lines) = some (rssLinesSum lines, []) := by
  simp [rss_mem_of_pid, rssFold_eq lines hwf]

theorem C6_rss_mem_of_pid_sum_witness :
    rss_mem_of_pid "1234" (some ["Rss:  100 kB", "Rss:  250 kB"]) = some (350, []) :=
  (C6_rss_mem_of_pid_sum "1234" ["Rss:  100 kB", "Rss:  250 kB"] (by decide)).trans (by decide)

/-- The kilobyte count a pid contributes to the per-program total: zero when
its smaps source is missing, else the source's Rss sum. -/
def pidContribution (smapsOf : String → Option (List String)) (p : String) : ℤ :=
  match smapsOf p with
  | none => 0
  | some ls => rssLinesSum ls

/-- The notice lines a pid's read prints: the not-found notice when its smaps
source is missing, nothing otherwise. -/
def pidNotices (smapsOf : String → Option (List String)) (p : String) : List String :=
  match smapsOf p with
  | none => ["Process " ++ p ++ " not found."]
  | some _ => []

theorem sumRssLoop_eq (smapsOf : String → Option (List String)) (pids : List String)
    (hwf : ∀ p ∈ pids, ∀ ls, smapsOf p = some ls → wfSmaps ls) :
    sumRssLoop smapsOf pids = some
      ((pids.map (pidContribution smapsOf)).sum,
        (pids.map (pidNotices smapsOf)).flatten,
        pids.map ReadEvent.smaps) := by
  induction pids with
  | nil => simp [sumRssLoop]
  | cons p rest ih =>
    have hrest : ∀ x ∈ rest, ∀ ls, smapsOf x = some ls → wfSmaps ls :=
      fun x hx => hwf x (List.mem_cons_of_mem _ hx)
    cases hs : smapsOf p with
    | none =>
      simp [sumRssLoop, rss_mem_of_pid, hs, ih hrest, pidContribution, pidNotices]
    | some ls =>
      have hfold := rssFold_eq ls (hwf p (List.mem_cons_self _ _) ls hs)
      simp [sumRssLoop, rss_mem_of_pid, hs, hfold, ih hrest, pidContribution, pidNotices]

/-- C7: when the smaps source for a pid is missing, `rss_mem_of_pid` returns
zero together with the non-fatal "Process <pid> not found." notice instead of
failing, and the driver's summation loop processes every pid, totalling the
per-pid contributions with the vanished pid contributing zero. -/
theorem C7_vanished_process (pid : String) (smapsOf : String → Option (List String))
    (pids : List String)
    (hwf : ∀ p ∈ pids, ∀ ls, smapsOf p = some ls → wfSmaps ls)
    (hmiss : smapsOf pid = none) :
    rss_mem_of_pid pid (smapsOf pid) = some (0, ["Process " ++ pid ++ " not found."])
    ∧ sumRssLoop smapsOf pids = some
        ((pids.map (pidContribution smapsOf)).sum,
          (pids.map (pidNotices smapsOf)).flatten,
          pids.map ReadEvent.smaps)
    ∧ pidContribution smapsOf pid = 0 := by
  refine ⟨?_, sumRssLoop_eq smapsOf pids hwf, ?_⟩
  · rw [hmiss]
    rfl
  · rw [pidContribution, hmiss]

theorem C7_vanished_process_witness :
    rss_mem_of_pid "2" ((fun p => if p = "1" then some ["Rss: 5 kB"] else none) "2")
        = some (0, ["Process 2 not found."])
      ∧ sumRssLoop (fun p => if p = "1" then some ["Rss: 5 kB"] else none) ["1", "2"] = some
          ((["1", "2"].map (pidContribution (fun p => if p = "1" then some ["Rss: 5 kB"] else none))).sum,
            (["1", "2"].map (pidNotices (fun p => if p = "1" then some ["Rss: 5 kB"] else none))).flatten,
            ["1", "2"].map ReadEvent.smaps)
      ∧ pidContribution (fun p => if p = "1" then some ["Rss: 5 kB"] else none) "2" = 0 := by
  refine C7_vanished_process "2" (fun p => if p = "1" then some ["Rss: 5 kB"] else none)
    ["1", "2"] ?_ (by decide)
  intro p hp ls hls
  by_cases hp1 : p = "1"
  · subst hp1
    simp at hls
    subst hls
    decide
  · simp [hp1] at hls

/-- The per-pid report lines the second driver loop prints. -/
def pidLines (smapsOf : String → Option (List String)) (hr : Bool) (len : ℤ)
    (totalMem : ℤ) (totalMemHr : String) : List String → List String
  | [] => []
  | pid :: rest =>
    pidNotices smapsOf pid
      ++ (pid ++ "         ["
          ++ percent_to_graph
              (Flt.div (Flt.ofInt (pidContribution smapsOf pid)) (Flt.ofInt totalMem)) len
          ++ "] " ++ sizeStr hr (pidContribution smapsOf pid) ++ "/" ++ totalMemHr)
        :: pidLines smapsOf hr len totalMem totalMemHr rest

theorem pidLinesLoop_eq (smapsOf : String → Option (List String)) (hr : Bool) (len : ℤ)
    (totalMem : ℤ) (totalMemHr : String) (pids : List String)
    (hwf : ∀ p ∈ pids, ∀ ls, smapsOf p = some ls → wfSmaps ls) :
    pidLinesLoop smapsOf hr len totalMem totalMemHr pids
      = some (pidLines smapsOf hr len totalMem totalMemHr pids,
          pids.map ReadEvent.smaps) := by
  induction pids with
  | nil => simp [pidLinesLoop, pidLines]
  | cons p rest ih =>
    have hrest : ∀ x ∈ rest, ∀ ls, smapsOf x = some ls → wfSmaps ls :=
      fun x hx => hwf x (List.mem_cons_of_mem _ hx)
    cases hs : smapsOf p with
    | none =>
      simp [pidLinesLoop, pidLines, rss_mem_of_pid, hs, ih hrest, pidContribution, pidNotices]
    | some ls =>
      have hfold := rssFold_eq ls (hwf p (List.mem_cons_self _ _) ls hs)
      simp [pidLinesLoop, pidLines, rss_mem_of_pid, hs, hfold, ih hrest, pidContribution,
        pidNotices]

/-- C8: when a (nonempty) program argument is given and the pid lookup
resolves to no process, the driver prints exactly the "<name> not found."
line, attempts no smaps read, and returns normally. -/
theorem C8_program_not_found (args : Args) (env : Env) (prog : String) (t a : ℤ)
    (hprog : args.program = some prog) (hne : prog ≠ "")
    (hpids : env.pidsOf prog = [])
    (ht : get_sys_mem env.meminfo = some t) (ht0 : t ≠ 0)
    (ha : get_avail_mem env.meminfo = some a) :
    mainRun args env = some ([prog ++ " not found."],
      [ReadEvent.meminfo, ReadEvent.meminfo, ReadEvent.pidof prog]) := by
  simp [mainRun, ht, ha, ht0, hprog, hne, hpids]

theorem C8_program_not_found_witness :
    mainRun ⟨some "nonexistent-binary-xyz", false, 20⟩
        ⟨["MemTotal: 1000 kB", "MemAvailable: 250 kB"], fun _ => [], fun _ => none⟩
      = some (["nonexistent-binary-xyz not found."],
          [ReadEvent.meminfo, ReadEvent.meminfo, ReadEvent.pidof "nonexistent-binary-xyz"]) :=
  C8_program_not_found _ _ "nonexistent-binary-xyz" 1000 250 rfl (by decide) rfl
    (by decide) (by decide) (by decide)

/-- C9 counterexample: on a run with one resolved pid the driver reads the
meminfo source twice (once in `get_sys_mem`, once in `get_avail_mem`) and
that pid's smaps source twice (once in the summing loop, once in the
printing loop), so neither is read exactly once. -/
theorem C9_counterexample :
    ((mainRun ⟨some "myprog", false, 10⟩
          ⟨["MemTotal: 1000 kB", "MemAvailable: 250 kB"],
            fun _ => ["1"], fun _ => some ["Rss: 5 kB"]⟩).map
        (fun r => (r.2.count ReadEvent.meminfo, r.2.count (ReadEvent.smaps "1"))))
        = some (2, 2)
      ∧ ((mainRun ⟨some "myprog", false, 10⟩
          ⟨["MemTotal: 1000 kB", "MemAvailable: 250 kB"],
            fun _ => ["1"], fun _ => some ["Rss: 5 kB"]⟩).map
        (fun r => (r.2.count ReadEvent.meminfo, r.2.count (ReadEvent.smaps "1"))))
        ≠ some (1, 1) := by
  constructor
  · decide
  · decide

/-- C9 (amended): no read is retried, but the per-entity count is two, not
one: every successful run attempts the meminfo read exactly twice (once for
the total and once for the available figure); a run with a program argument
and no resolved pid attempts one pidof lookup and no smaps read; a run with
resolved pids attempts each pid's smaps read exactly twice, once in the
summing loop and once in the printing loop. -/
theorem C9_single_attempt_reads (args : Args) (env : Env) (t a : ℤ)
    (ht : get_sys_mem env.meminfo = some t) (ht0 : t ≠ 0)
    (ha : get_avail_mem env.meminfo = some a) :
    (args.program = none →
      (mainRun args env).map Prod.snd = some [ReadEvent.meminfo, ReadEvent.meminfo])
    ∧ (∀ prog, args.program = some prog → prog ≠ "" → env.pidsOf prog = [] →
      (mainRun args env).map Prod.snd
        = some [ReadEvent.meminfo, ReadEvent.meminfo, ReadEvent.pidof prog])
    ∧ (∀ prog, args.program = some prog → prog ≠ "" → env.pidsOf prog ≠ [] →
      (∀ p ∈ env.pidsOf prog, ∀ ls, env.smapsOf p = some ls → wfSmaps ls) →
      (mainRun args env).map Prod.snd
        = some ([ReadEvent.meminfo, ReadEvent.meminfo, ReadEvent.pidof prog]
            ++ (env.pidsOf prog).map ReadEvent.smaps
            ++ (env.pidsOf prog).map ReadEvent.smaps)) := by
  refine ⟨?_, ?_, ?_⟩
  · intro hprog
    simp [mainRun, ht, ha, ht0, hprog]
  · intro prog hprog hne hpids
    simp [mainRun, ht, ha, ht0, hprog, hne, hpids]
  · intro prog hprog hne hpids hwf
    have h1 := sumRssLoop_eq env.smapsOf (env.pidsOf prog) hwf
    have h2 := pidLinesLoop_eq env.smapsOf args.human_readable args.length t
      (sizeStr args.human_readable t) (env.pidsOf prog) hwf
    simp [mainRun, ht, ha, ht0, hprog, hne, hpids, h1, h2]

theorem C9_single_attempt_reads_witness :
    (mainRun ⟨some "myprog", false, 10⟩
        ⟨["MemTotal: 1000 kB", "MemAvailable: 250 kB"],
          fun _ => ["1"], fun _ => some ["Rss: 5 kB"]⟩).map Prod.snd
      = some ([ReadEvent.meminfo, ReadEvent.meminfo, ReadEvent.pidof "myprog"]
          ++ (["1"].map ReadEvent.smaps) ++ (["1"].map ReadEvent.smaps)) := by
  refine (C9_single_attempt_reads ⟨some "myprog", false, 10⟩
      ⟨["MemTotal: 1000 kB", "MemAvailable: 250 kB"],
        fun _ => ["1"], fun _ => some ["Rss: 5 kB"]⟩ 1000 250
      (by decide) (by decide) (by decide)).2.2 "myprog" rfl (by decide) (by decide) ?_
  intro p hp ls hls
  simp at hls
  subst hls
  decide

/-- C1: on a meminfo source with MemTotal 1000 and MemAvailable 250, bar
length 10 and human-readable off, the driver prints the system report line
whose bar holds exactly 7 fill characters (int(0.75 * 10) = 7) and whose
size field is "750 KiB/1000 KiB". -/
theorem C1_system_report :
    mainRun ⟨none, false, 10⟩
        ⟨["MemTotal: 1000 kB", "MemAvailable: 250 kB"], fun _ => [], fun _ => none⟩
      = some (["Memory         [#######    | 75%] 750 KiB/1000 KiB"],
          [ReadEvent.meminfo, ReadEvent.meminfo])
    ∧ percent_to_graph (Flt.div (Flt.ofInt 750) (Flt.ofInt 1000)) 10 = "#######   "
    ∧ (percent_to_graph (Flt.div (Flt.ofInt 750) (Flt.ofInt 1000)) 10).data.count '#' = 7 := by
  refine ⟨?_, ?_, ?_⟩ <;> decide
